import Mathlib

/-!
Shallow embedding of the go-fuzzdump repository (package `fuzzdump`).

Go error values are modelled by the inductive `GoErr`:
* `sentinel k` — one of the four package-level sentinel errors created
  with `errors.New` (`ErrEmptyCorpus`, `ErrMalformedEntry`,
  `ErrUnsupportedVersion`, `ErrInconsistentArgCount`); each is a unique
  allocation, so two sentinels are `==`-equal iff they are the same kind.
* `wrap id msg inner` — a `fmt.Errorf("... %w ...")` wrapper; `msg` is the
  full `Error()` text and `inner` the wrapped error.  `id` models the
  allocation identity of the wrapper (Go `==` on two wrappers compares
  pointers; every wrapper the program builds is a fresh allocation).
* `external id msg` — an error produced outside the package (an I/O
  failure from the filesystem or the output sink); `id` again models
  allocation identity.
* `corpus es` — a `CorpusErrors` value (a Go slice of errors).

A Go `nil` error is `Option.none`; functions that may return `nil` return
`Option GoErr`.
-/

inductive ErrKind where
  | emptyCorpus
  | malformedEntry
  | unsupportedVersion
  | inconsistentArgCount
deriving DecidableEq

inductive GoErr where
  | sentinel (k : ErrKind)
  | wrap (id : Nat) (msg : String) (inner : GoErr)
  | external (id : Nat) (msg : String)
  | corpus (es : List GoErr)

/-- `CorpusErrors` is a slice of errors (`type CorpusErrors []error`). -/
abbrev CorpusErrors := List GoErr

/-- `sizeOf` of a list element is below the `sizeOf` of the wrapping
`GoErr.corpus` value. -/
theorem sizeOf_lt_corpus {x : GoErr} {es : List GoErr} (h : x ∈ es) :
    sizeOf x < sizeOf (GoErr.corpus es) := by
  have := List.sizeOf_lt_of_mem h
  simp only [GoErr.corpus.sizeOf_spec]
  omega

/-- Dropping the last element strictly shrinks a nonempty list's `sizeOf`. -/
theorem sizeOf_dropLast_lt {α : Type} [SizeOf α] :
    ∀ (es : List α), es ≠ [] → sizeOf es.dropLast < sizeOf es := by
  intro es h
  induction es with
  | nil => exact absurd rfl h
  | cons a t ih =>
    cases t with
    | nil => simp [List.dropLast]
    | cons b u =>
      have := ih (by simp)
      simp only [List.cons.sizeOf_spec] at this
      simp only [List.dropLast_cons₂, List.cons.sizeOf_spec]
      omega

/-- The message text of the four sentinel errors (`errors.New` texts). -/
def sentinelMsg : ErrKind → String
  | .emptyCorpus => "no valid fuzz corpus files in directory"
  | .malformedEntry => "must include version and at least one value"
  | .unsupportedVersion => "unsupported encoding version"
  | .inconsistentArgCount => "inconsistent arg count in corpus entry"

mutual

/-- `Error()` of an error value.  For a `CorpusErrors` value this is its
`Error` method: a fixed sentence when empty, otherwise a header line
joined with each element's message by `"\n\t"`. -/
def errMsg : GoErr → String
  | .sentinel k => sentinelMsg k
  | .wrap _ msg _ => msg
  | .external _ msg => msg
  | .corpus es =>
    if es.isEmpty then "no fuzz corpus errors"
    else String.intercalate "\n\t" ("fuzz corpus has errors:" :: errMsgList es)
termination_by e => sizeOf e

/-- The `Error()` messages of a list of errors, in order. -/
def errMsgList : List GoErr → List String
  | [] => []
  | e :: t => errMsg e :: errMsgList t
termination_by l => sizeOf l
decreasing_by
  · simp only [List.cons.sizeOf_spec]; omega
  · simp only [List.cons.sizeOf_spec]; omega

end

/-- Whether Go `==` is allowed on the dynamic type of this error:
`errors.Is` only compares `err == target` when `target`'s type is
comparable, and `CorpusErrors` (a slice type) is not. -/
def goComparable : GoErr → Bool
  | .corpus _ => false
  | _ => true

/-- Go `==` on two error interface values.  Sentinels are equal iff they
are the same sentinel; wrappers and external errors are distinct fresh
allocations, equal iff they are the same allocation (same `id`); a slice
(`corpus`) never compares equal (types differ, or comparison is skipped
because the type is not comparable). -/
def goEq : GoErr → GoErr → Bool
  | .sentinel k, .sentinel k' => k = k'
  | .wrap i _ _, .wrap j _ _ => i = j
  | .external i _, .external j _ => i = j
  | _, _ => false

/-- `CorpusErrors.AsError`: `nil` if the aggregate is empty, otherwise
the aggregate itself. -/
def AsError (es : CorpusErrors) : Option GoErr :=
  if es.isEmpty then none else some (.corpus es)

/-- `CorpusErrors.Unwrap`: `e` without its last error, or `nil` if `e`
is empty (the slice `e[:len(e)-1]` passed through `AsError`). -/
def UnwrapErrs (es : CorpusErrors) : Option GoErr :=
  if es.isEmpty then none else AsError es.dropLast

/-- The `Unwrap() error` step `errors.Is` performs: `fmt.Errorf`
wrappers unwrap to the wrapped error, `CorpusErrors` unwraps via its
`Unwrap` method, and all other errors have no `Unwrap` method. -/
def goUnwrap : GoErr → Option GoErr
  | .wrap _ _ inner => some inner
  | .corpus es => UnwrapErrs es
  | _ => none

theorem goUnwrap_sizeOf {e i : GoErr} (h : goUnwrap e = some i) :
    sizeOf i < sizeOf e := by
  cases e with
  | sentinel k => simp [goUnwrap] at h
  | external j m => simp [goUnwrap] at h
  | wrap j m inner =>
    simp only [goUnwrap, Option.some.injEq] at h
    subst h
    simp only [GoErr.wrap.sizeOf_spec]
    omega
  | corpus es =>
    simp only [goUnwrap, UnwrapErrs, AsError] at h
    split at h
    · exact absurd h (by simp)
    · split at h
      · exact absurd h (by simp)
      · rename_i h1 h2
        simp only [Option.some.injEq] at h
        subst h
        simp only [GoErr.corpus.sizeOf_spec]
        have : es ≠ [] := by simpa using h1
        have := sizeOf_dropLast_lt es this
        omega

mutual

/-- `errors.Is(err, target)` from the Go standard library, specialised
to the error values this program can build: try `==` (when `target`'s
type is comparable), then the `Is` method (only `CorpusErrors` has one),
then follow `Unwrap` and repeat. -/
def errorsIs (err target : GoErr) : Bool :=
  (goComparable target && goEq err target) ||
  (match err with
   | .corpus es => corpusErrorsIs es target
   | _ => false) ||
  (match h : goUnwrap err with
   | some inner => errorsIs inner target
   | none => false)
termination_by sizeOf err + sizeOf target
decreasing_by
  · simp only [GoErr.corpus.sizeOf_spec]; omega
  · have := goUnwrap_sizeOf h; omega

/-- `CorpusErrors.Is` (the `Is` method): when the target is itself a
`CorpusErrors`, empties match only each other, and two non-empty
aggregates match iff every error in the target matches the receiver via
`errors.Is`; otherwise the receiver matches iff `errors.Is` holds of its
last element and the target (never, when the receiver is empty). -/
def corpusErrorsIs (es : List GoErr) (target : GoErr) : Bool :=
  match target with
  | .corpus ts =>
    if es.isEmpty || ts.isEmpty then es.isEmpty == ts.isEmpty
    else ts.attach.all fun t => errorsIs (.corpus es) t.1
  | t =>
    match h : es.getLast? with
    | some l => errorsIs l t
    | none => false
termination_by sizeOf es + sizeOf target
decreasing_by
  · rename_i t
    have := List.sizeOf_lt_of_mem t.2
    simp only [GoErr.corpus.sizeOf_spec]
    omega
  · have hm : l ∈ es := by
      obtain ⟨hne, hl⟩ := List.mem_getLast?_eq_getLast (show l ∈ es.getLast? from h)
      exact hl ▸ List.getLast_mem hne
    have := List.sizeOf_lt_of_mem hm
    omega

end

/-- `IsValidationError`: whether `err` matches (via `errors.Is`) one of
the three entry validation sentinels. -/
def IsValidationError (err : GoErr) : Bool :=
  errorsIs err (.sentinel .malformedEntry) ||
  errorsIs err (.sentinel .unsupportedVersion) ||
  errorsIs err (.sentinel .inconsistentArgCount)

mutual

/-- The body of `CorpusErrors.Capture` for a non-`nil` candidate: a
nested `CorpusErrors` has its elements captured one by one; a
validation error is appended, absorbing it; an error matching
`ErrEmptyCorpus` is appended and the updated aggregate is returned as
the signal; anything else is returned unchanged.  The mutated receiver
is returned as the first component. -/
def CaptureErr (e : CorpusErrors) (err : GoErr) : CorpusErrors × Option GoErr :=
  match err with
  | .corpus errs => CaptureAll e errs
  | _ =>
    if IsValidationError err then (e ++ [err], none)
    else if errorsIs err (.sentinel .emptyCorpus) then
      (e ++ [err], AsError (e ++ [err]))
    else (e, some err)
termination_by 2 * sizeOf err
decreasing_by
  simp only [GoErr.corpus.sizeOf_spec]; omega

/-- The `for _, err := range errs` loop inside `CorpusErrors.Capture`:
capture each element in order, stopping at the first non-`nil` signal. -/
def CaptureAll (e : CorpusErrors) (errs : List GoErr) : CorpusErrors × Option GoErr :=
  match errs with
  | [] => (e, none)
  | err :: rest =>
    match CaptureErr e err with
    | (e', none) => CaptureAll e' rest
    | (e', some s) => (e', some s)
termination_by 2 * sizeOf errs + 1
decreasing_by
  · simp only [List.cons.sizeOf_spec]; omega
  · simp only [List.cons.sizeOf_spec]; omega

end

/-- `CorpusErrors.Capture`: a `nil` candidate is a no-op; otherwise the
candidate is processed by `CaptureErr`. -/
def Capture (e : CorpusErrors) (err : Option GoErr) : CorpusErrors × Option GoErr :=
  match err with
  | none => (e, none)
  | some err => CaptureErr e err

/-- `%q` formatting of a string (as in `fmt.Errorf("%w: %q", ...)`):
surrounding double quotes with the usual escapes.  Only the escapes that
the texts in this development can contain are modelled; `strconv`'s
further escapes (other control characters, non-printable runes) never
arise here. -/
def quoteChar (c : Char) : List Char :=
  if c = '\\' then ['\\', '\\']
  else if c = '"' then ['\\', '"']
  else if c = '\n' then ['\\', 'n']
  else if c = '\r' then ['\\', 'r']
  else if c = '\t' then ['\\', 't']
  else [c]

def goQuote (s : String) : String :=
  "\"" ++ String.mk (s.data.map quoteChar).flatten ++ "\""

/-- `readErr(err, fileName)` on a non-`nil` error: wrap it with the file
name and a "reading" tag (`fmt.Errorf("reading %q: %w", fileName, err)`).
Go's `readErr` also maps `nil` to `nil`; no call site passes `nil`, and
the `nil` case is kept on the `Option` level by the callers below. -/
def readErr (e : GoErr) (fileName : String) : GoErr :=
  .wrap 0 ("reading " ++ goQuote fileName ++ ": " ++ errMsg e) e

/-- `writeErr(err)` on a non-`nil` error: wrap it with the
"writing output" tag (`fmt.Errorf("writing output: %w", err)`). -/
def writeErr (e : GoErr) : GoErr :=
  .wrap 0 ("writing output: " ++ errMsg e) e

/-- The error `dumpFiles` records for an entry whose argument count
differs from the detected arity:
`readErr(fmt.Errorf("%w: want %d, got %d", ErrInconsistentArgCount, argCount, l), name)`. -/
def inconsistentCountErr (argCount got : Nat) (name : String) : GoErr :=
  readErr
    (.wrap 0 (errMsg (.sentinel .inconsistentArgCount) ++
        ": want " ++ toString argCount ++ ", got " ++ toString got)
      (.sentinel .inconsistentArgCount))
    name

/-- `unicode.IsSpace`, as used by `bytes.TrimSpace`. -/
def goIsSpace (c : Char) : Bool :=
  c.val == 0x20 || (0x9 ≤ c.val && c.val ≤ 0xD) || c.val == 0x85 || c.val == 0xA0 ||
  c.val == 0x1680 || (0x2000 ≤ c.val && c.val ≤ 0x200A) ||
  c.val == 0x2028 || c.val == 0x2029 || c.val == 0x202F || c.val == 0x205F ||
  c.val == 0x3000

/-- `bytes.TrimSpace`: strip leading and trailing whitespace. -/
def trimSpace (s : String) : String :=
  String.mk (((s.data.dropWhile goIsSpace).reverse.dropWhile goIsSpace).reverse)

/-- `strings.TrimSuffix(s, "\r")`. -/
def trimCR (s : String) : String :=
  match s.data.getLast? with
  | some c => if c = '\r' then String.mk s.data.dropLast else s
  | none => s

/-- `bytes.Split(b, []byte("\n"))` on the underlying characters:
the sub-lists between the newline separators (one more piece than there
are separators; the empty input yields one empty piece). -/
def splitList (l : List Char) : List (List Char) :=
  match l with
  | [] => [[]]
  | c :: t =>
    if c = '\n' then [] :: splitList t
    else
      match splitList t with
      | [] => [[c]]
      | h :: r => (c :: h) :: r

/-- `encVersion1`, the first line of a file with version 1 encoding. -/
def encVersion1 : String := "go test fuzz v1"

/-- `readLines`: decode one corpus file.  The `fs.ReadFile` outcome is
the given `content` (an opaque read failure is propagated unchanged);
the bytes are split on `"\n"`, the version line (with a trailing `"\r"`
stripped) must equal `encVersion1`, and the remaining lines are trimmed,
blank lines dropped; no surviving line (or fewer than two lines in
total) is a malformed entry. -/
def readLines (content : Except GoErr String) : Except GoErr (List String) :=
  match content with
  | .error e => .error e
  | .ok b =>
    let s := (splitList b.data).map String.mk
    if s.length < 2 then .error (.sentinel .malformedEntry)
    else
      let v := trimCR (s.headD "")
      if v ≠ encVersion1 then
        .error (.wrap 0 (errMsg (.sentinel .unsupportedVersion) ++ ": " ++ goQuote v)
          (.sentinel .unsupportedVersion))
      else
        let lines := s.tail.filterMap fun l =>
          let line := trimSpace l
          if line.isEmpty then none else some line
        if lines.length < 1 then .error (.sentinel .malformedEntry)
        else .ok lines

/-- One entry of the directory listing: the file's name, whether it is a
regular file, and the outcome `fs.ReadFile` would produce for it. -/
structure FileEntry where
  name : String
  regular : Bool
  content : Except GoErr String

/-- `getFiles`: the regular files of the directory listing.  (The
listing itself is the model's input; a listing failure, which `DumpDir`
propagates unchanged, is not modelled.) -/
def getFiles (listing : List FileEntry) : List FileEntry :=
  listing.filter (·.regular)

/-- `corpusFiles`: `getFiles`, with `ErrEmptyCorpus` when the directory
has no regular files. -/
def corpusFiles (listing : List FileEntry) : Except GoErr (List FileEntry) :=
  let files := getFiles listing
  if files.isEmpty then .error (.sentinel .emptyCorpus) else .ok files

structure Separators where
  Pre : String
  In : String
  Post : String

def sigleArgSep : Separators := { Pre := "\x7b", In := "", Post := "\x7d" }

def multiArgSep : Separators := ⟨"\x7b\x7b", "\x7d, \x7b", "\x7d\x7d"⟩

/-- The output sink (`io.Writer`): it may be programmed to fail on its
`failAt`-th `Write` call, returning `failErr`. -/
structure GoWriter where
  failAt : Option Nat
  failErr : GoErr

/-- The sink's state: the bytes written so far and the number of `Write`
calls made. -/
structure SinkState where
  out : String
  calls : Nat

/-- One `Write` call (each `fmt.Fprintln`/`fmt.Fprintf` in the program
formats its text and hands it to the sink in a single `Write`). -/
def write (w : GoWriter) (s : SinkState) (str : String) : SinkState × Option GoErr :=
  if w.failAt = some s.calls then ({ s with calls := s.calls + 1 }, some w.failErr)
  else ({ out := s.out ++ str, calls := s.calls + 1 }, none)

/-- `dumpLines`: write each value as `fmt.Fprintf(w, "\t%s,\n", v)`;
a write failure is wrapped by `writeErr` and returned at once. -/
def dumpLines (w : GoWriter) (s : SinkState) : List String → SinkState × Option GoErr
  | [] => (s, none)
  | v :: rest =>
    match write w s ("\t" ++ v ++ ",\n") with
    | (s', some e) => (s', some (writeErr e))
    | (s', none) => dumpLines w s' rest

/-- `dumpFiles`: validate each remaining file; read failures go through
`errs.Capture` (aborting on a non-`nil` signal), a wrong argument count
is recorded as an `ErrInconsistentArgCount` with a `"want %d, got %d"`
detail and the entry is skipped, and a matching entry is written (with
the `multiArgSep.In` separator line first when `argCount > 1`).  Returns
`errs.AsError()` after the loop.  The Go receiver state `errs` is the
explicit accumulator argument (the function's own `errs` starts empty). -/
def dumpFiles (w : GoWriter) (s : SinkState) (errs : CorpusErrors) (argCount : Nat) :
    List FileEntry → SinkState × Option GoErr
  | [] => (s, AsError errs)
  | f :: rest =>
    match readLines f.content with
    | .error err =>
      match Capture errs (some (readErr err f.name)) with
      | (errs', none) => dumpFiles w s errs' argCount rest
      | (_, some e) => (s, some e)
    | .ok lines =>
      if lines.length ≠ argCount then
        dumpFiles w s
          (errs ++ [inconsistentCountErr argCount lines.length f.name])
          argCount rest
      else
        if argCount > 1 then
          match write w s (multiArgSep.In ++ "\n") with
          | (s', some e) => (s', some (writeErr e))
          | (s', none) =>
            match dumpLines w s' lines with
            | (s'', some e) => (s'', some e)
            | (s'', none) => dumpFiles w s'' errs argCount rest
        else
          match dumpLines w s lines with
          | (s'', some e) => (s'', some e)
          | (s'', none) => dumpFiles w s'' errs argCount rest

/-- `firstValidFileLines`: scan the listing in order for the first file
`readLines` accepts; its lines and the listing from that file on are
returned together with `errs.AsError()`.  Failures before it are
captured (wrapped by `readErr`); a non-`nil` capture signal is returned
at once.  If no file validates, `ErrEmptyCorpus` is captured and the
resulting signal (the aggregate) is returned.  The Go local `errs` is
the explicit accumulator argument (the caller starts it empty). -/
def firstValidFileLines (errs : CorpusErrors) :
    List FileEntry → List String × List FileEntry × Option GoErr
  | [] =>
    let r := Capture errs (some (.sentinel .emptyCorpus))
    ([], [], r.2)
  | f :: rest =>
    match readLines f.content with
    | .ok lines => (lines, f :: rest, AsError errs)
    | .error err =>
      match Capture errs (some (readErr err f.name)) with
      | (errs', none) => firstValidFileLines errs' rest
      | (_, some e) => ([], [], some e)

/-- `DumpDir`: the whole scan, driving `corpusFiles`,
`firstValidFileLines`, the delimiters, `dumpLines`, `dumpFiles` and the
final `errs.AsError()`, with every non-`nil` error routed exactly as in
the source (through `errs.Capture` or returned directly).  The result is
the final sink state alongside the returned error. -/
def DumpDir (w : GoWriter) (listing : List FileEntry) : SinkState × Option GoErr :=
  let s0 : SinkState := { out := "", calls := 0 }
  match corpusFiles listing with
  | .error e => (s0, some e)
  | .ok files =>
    match firstValidFileLines [] files with
    | (lines, files', ferr) =>
      match Capture [] ferr with
      | (_, some e) => (s0, some e)
      | (errs, none) =>
        let argCount := lines.length
        let seps := if argCount > 1 then multiArgSep else sigleArgSep
        match write w s0 (seps.Pre ++ "\n") with
        | (s1, some e) => (s1, some (writeErr e))
        | (s1, none) =>
          match dumpLines w s1 lines with
          | (s2, some e) => (s2, some e)
          | (s2, none) =>
            match dumpFiles w s2 [] argCount (files'.drop 1) with
            | (s3, derr) =>
              match Capture errs derr with
              | (_, some e) => (s3, some e)
              | (errs2, none) =>
                match write w s3 (seps.Post ++ "\n") with
                | (s4, some e) => (s4, some (writeErr e))
                | (s4, none) => (s4, AsError errs2)

/-! Unfolding lemmas for the well-founded definitions above, one per
constructor shape, so later proofs can evaluate them by rewriting. -/

@[simp] theorem errMsg_sentinel (k : ErrKind) : errMsg (.sentinel k) = sentinelMsg k := by
  rw [errMsg.eq_def]

@[simp] theorem errMsg_wrap (i : Nat) (m : String) (inner : GoErr) :
    errMsg (.wrap i m inner) = m := by
  rw [errMsg.eq_def]

@[simp] theorem errMsg_external (i : Nat) (m : String) : errMsg (.external i m) = m := by
  rw [errMsg.eq_def]

@[simp] theorem errorsIs_sentinel (k : ErrKind) (t : GoErr) :
    errorsIs (.sentinel k) t = (goComparable t && goEq (.sentinel k) t) := by
  rw [errorsIs.eq_def]
  simp [goUnwrap]

@[simp] theorem errorsIs_external (i : Nat) (m : String) (t : GoErr) :
    errorsIs (.external i m) t = (goComparable t && goEq (.external i m) t) := by
  rw [errorsIs.eq_def]
  simp [goUnwrap]

@[simp] theorem errorsIs_wrap (i : Nat) (m : String) (inner t : GoErr) :
    errorsIs (.wrap i m inner) t =
      ((goComparable t && goEq (.wrap i m inner) t) || errorsIs inner t) := by
  rw [errorsIs.eq_def]
  simp [goUnwrap]

theorem errorsIs_corpus (es : List GoErr) (t : GoErr) :
    errorsIs (.corpus es) t =
      (corpusErrorsIs es t ||
        if es.dropLast.isEmpty then false else errorsIs (.corpus es.dropLast) t) := by
  rw [errorsIs.eq_def]
  have hgoeq : goEq (.corpus es) t = false := by cases t <;> rfl
  rw [hgoeq]
  simp only [Bool.and_false, Bool.false_or]
  congr 1
  by_cases h2 : es.dropLast.isEmpty
  · have hu : goUnwrap (.corpus es) = none := by
      simp only [goUnwrap, UnwrapErrs, AsError, h2]
      split <;> simp
    split
    · rename_i inner heq
      rw [hu] at heq
      cases heq
    · simp [h2]
  · have hne : ¬ es.isEmpty = true := by
      intro he
      have : es = [] := by simpa using he
      subst this
      simp at h2
    have hu : goUnwrap (.corpus es) = some (.corpus es.dropLast) := by
      simp only [goUnwrap, UnwrapErrs, AsError, hne, if_false, h2]
      rfl
    split
    · rename_i inner heq
      rw [hu] at heq
      cases heq
      simp [h2]
    · rename_i heq
      rw [hu] at heq
      cases heq

/-- Converting the `attach`-based traversal used for termination back to
a plain `List.all`. -/
theorem attach_all_eq_all {α : Type} (l : List α) (p : α → Bool) :
    (l.attach.all fun x => p x.1) = l.all p := by
  cases hb : l.all p with
  | true =>
    rw [List.all_eq_true] at hb
    rw [List.all_eq_true]
    intro x _
    exact hb x.1 x.2
  | false =>
    rw [List.all_eq_false] at hb
    rw [List.all_eq_false]
    obtain ⟨x, hx, hpx⟩ := hb
    exact ⟨⟨x, hx⟩, List.mem_attach _ _, hpx⟩

theorem corpusErrorsIs_corpus (es ts : List GoErr) :
    corpusErrorsIs es (.corpus ts) =
      (if es.isEmpty || ts.isEmpty then es.isEmpty == ts.isEmpty
       else ts.all fun t => errorsIs (.corpus es) t) := by
  rw [corpusErrorsIs.eq_def]
  by_cases h : (es.isEmpty || ts.isEmpty : Bool)
  · simp [h]
  · simp only [h, if_false]
    exact attach_all_eq_all ts _

/-- Whether the dynamic type of the error is `CorpusErrors`. -/
def isAggregate : GoErr → Bool
  | .corpus _ => true
  | _ => false

theorem corpusErrorsIs_plain_nil (t : GoErr) (ht : isAggregate t = false) :
    corpusErrorsIs [] t = false := by
  rw [corpusErrorsIs.eq_def]
  cases t with
  | corpus ts => simp [isAggregate] at ht
  | sentinel k => rfl
  | wrap i m inner => rfl
  | external i m => rfl

theorem corpusErrorsIs_plain_getLast (es : List GoErr) (l t : GoErr)
    (h : es.getLast? = some l) (ht : isAggregate t = false) :
    corpusErrorsIs es t = errorsIs l t := by
  rw [corpusErrorsIs.eq_def]
  cases t with
  | corpus ts => simp [isAggregate] at ht
  | sentinel k =>
    show (match h : es.getLast? with
          | some l => errorsIs l (GoErr.sentinel k)
          | none => false) = errorsIs l (GoErr.sentinel k)
    split
    · rename_i l' heq
      rw [h] at heq
      cases heq
      rfl
    · rename_i heq
      rw [h] at heq
      cases heq
  | wrap i m inner =>
    show (match h : es.getLast? with
          | some l => errorsIs l (GoErr.wrap i m inner)
          | none => false) = errorsIs l (GoErr.wrap i m inner)
    split
    · rename_i l' heq
      rw [h] at heq
      cases heq
      rfl
    · rename_i heq
      rw [h] at heq
      cases heq
  | external i m =>
    show (match h : es.getLast? with
          | some l => errorsIs l (GoErr.external i m)
          | none => false) = errorsIs l (GoErr.external i m)
    split
    · rename_i l' heq
      rw [h] at heq
      cases heq
      rfl
    · rename_i heq
      rw [h] at heq
      cases heq

@[simp] theorem CaptureErr_corpus (e : CorpusErrors) (errs : List GoErr) :
    CaptureErr e (.corpus errs) = CaptureAll e errs := by
  rw [CaptureErr.eq_def]

theorem CaptureErr_plain (e : CorpusErrors) (err : GoErr) (h : isAggregate err = false) :
    CaptureErr e err =
      (if IsValidationError err then (e ++ [err], none)
       else if errorsIs err (.sentinel .emptyCorpus) then
         (e ++ [err], AsError (e ++ [err]))
       else (e, some err)) := by
  rw [CaptureErr.eq_def]
  cases err with
  | corpus es => simp [isAggregate] at h
  | sentinel k => rfl
  | wrap i m inner => rfl
  | external i m => rfl

@[simp] theorem CaptureAll_nil (e : CorpusErrors) : CaptureAll e [] = (e, none) := by
  rw [CaptureAll.eq_def]

theorem CaptureAll_cons (e : CorpusErrors) (err : GoErr) (rest : List GoErr) :
    CaptureAll e (err :: rest) =
      (match CaptureErr e err with
       | (e', none) => CaptureAll e' rest
       | (e', some s) => (e', some s)) := by
  rw [CaptureAll.eq_def]

/-! Evaluation lemmas for `goEq`, `goComparable`, `AsError`,
`IsValidationError` and `Capture`. -/

@[simp] theorem goComparable_sentinel (k : ErrKind) : goComparable (.sentinel k) = true := rfl

@[simp] theorem goComparable_wrap (i : Nat) (m : String) (inner : GoErr) :
    goComparable (.wrap i m inner) = true := rfl

@[simp] theorem goComparable_external (i : Nat) (m : String) :
    goComparable (.external i m) = true := rfl

@[simp] theorem goComparable_corpus (es : List GoErr) : goComparable (.corpus es) = false := rfl

@[simp] theorem goEq_sentinel_sentinel (k k' : ErrKind) :
    goEq (.sentinel k) (.sentinel k') = decide (k = k') := rfl

@[simp] theorem goEq_wrap_sentinel (i : Nat) (m : String) (inner : GoErr) (k : ErrKind) :
    goEq (.wrap i m inner) (.sentinel k) = false := rfl

@[simp] theorem goEq_external_sentinel (i : Nat) (m : String) (k : ErrKind) :
    goEq (.external i m) (.sentinel k) = false := rfl

@[simp] theorem goEq_corpus_left (es : List GoErr) (t : GoErr) :
    goEq (.corpus es) t = false := by cases t <;> rfl

@[simp] theorem AsError_nil : AsError [] = none := rfl

theorem AsError_ne_nil (es : CorpusErrors) (h : es ≠ []) : AsError es = some (.corpus es) := by
  unfold AsError
  rw [if_neg]
  simpa using h

@[simp] theorem AsError_append_singleton (e : CorpusErrors) (x : GoErr) :
    AsError (e ++ [x]) = some (.corpus (e ++ [x])) :=
  AsError_ne_nil _ (by simp)

theorem IsValidationError_sentinel (k : ErrKind) :
    IsValidationError (.sentinel k) = decide (k ≠ ErrKind.emptyCorpus) := by
  cases k <;> simp [IsValidationError]

@[simp] theorem IsValidationError_wrap (i : Nat) (m : String) (inner : GoErr) :
    IsValidationError (.wrap i m inner) = IsValidationError inner := by
  simp [IsValidationError]

@[simp] theorem IsValidationError_external (i : Nat) (m : String) :
    IsValidationError (.external i m) = false := by
  simp [IsValidationError, goEq]

@[simp] theorem errorsIs_readErr_sentinel (v : GoErr) (n : String) (k : ErrKind) :
    errorsIs (readErr v n) (.sentinel k) = errorsIs v (.sentinel k) := by
  simp [readErr]

@[simp] theorem Capture_none (e : CorpusErrors) : Capture e none = (e, none) := rfl

theorem CaptureErr_validation (e : CorpusErrors) (err : GoErr)
    (hna : isAggregate err = false) (h : IsValidationError err = true) :
    CaptureErr e err = (e ++ [err], none) := by
  rw [CaptureErr_plain e err hna, h]
  simp

theorem CaptureErr_emptyCorpus (e : CorpusErrors) (err : GoErr)
    (hna : isAggregate err = false) (h1 : IsValidationError err = false)
    (h2 : errorsIs err (.sentinel .emptyCorpus) = true) :
    CaptureErr e err = (e ++ [err], some (.corpus (e ++ [err]))) := by
  rw [CaptureErr_plain e err hna, h1, h2]
  simp

theorem CaptureErr_passthrough (e : CorpusErrors) (err : GoErr)
    (hna : isAggregate err = false) (h1 : IsValidationError err = false)
    (h2 : errorsIs err (.sentinel .emptyCorpus) = false) :
    CaptureErr e err = (e, some err) := by
  rw [CaptureErr_plain e err hna, h1, h2]
  simp

/-- Capturing a list that starts with an already-absorbed prefix. -/
theorem CaptureAll_append_of_none (e e' : CorpusErrors) (pre l : List GoErr)
    (h : CaptureAll e pre = (e', none)) :
    CaptureAll e (pre ++ l) = CaptureAll e' l := by
  induction pre generalizing e with
  | nil =>
    simp only [CaptureAll_nil, Prod.mk.injEq] at h
    rw [List.nil_append, h.1]
  | cons p ps ih =>
    rw [List.cons_append, CaptureAll_cons]
    rw [CaptureAll_cons] at h
    rcases hc : CaptureErr e p with ⟨ep, sig⟩
    simp only [hc] at h ⊢
    cases sig with
    | none =>
      have h2 : CaptureAll ep ps = (e', none) := h
      show CaptureAll ep (ps ++ l) = CaptureAll e' l
      exact ih ep h2
    | some s =>
      have h2 : ((ep, some s) : CorpusErrors × Option GoErr) = (e', none) := h
      simp at h2

/-- Capturing a list of validation errors appends them all, in order,
with a `nil` signal. -/
theorem CaptureAll_validation (e : CorpusErrors) (l : List GoErr)
    (h : ∀ x ∈ l, isAggregate x = false ∧ IsValidationError x = true) :
    CaptureAll e l = (e ++ l, none) := by
  induction l generalizing e with
  | nil => simp
  | cons p ps ih =>
    obtain ⟨hna, hv⟩ := h p (by simp)
    rw [CaptureAll_cons, CaptureErr_validation e p hna hv]
    show CaptureAll (e ++ [p]) ps = (e ++ p :: ps, none)
    rw [ih (e ++ [p]) fun x hx => h x (by simp [hx])]
    simp

/-- Capturing a bare `ErrEmptyCorpus` sentinel: appended, and the
updated aggregate is returned as the signal. -/
theorem CaptureErr_EC (e : CorpusErrors) :
    CaptureErr e (.sentinel .emptyCorpus) =
      (e ++ [.sentinel .emptyCorpus],
       some (.corpus (e ++ [.sentinel .emptyCorpus]))) := by
  apply CaptureErr_emptyCorpus
  · rfl
  · rw [IsValidationError_sentinel]
    simp
  · simp

/-- C1: `CorpusErrors.Capture` on a single (non-aggregate) candidate:
a candidate matching one of the three validation kinds (also when
wrapped with contextual text) is appended to the aggregate and `nil` is
returned; otherwise, a candidate matching `ErrEmptyCorpus` is appended
and the aggregate itself (now containing it) is returned as the abort
signal; any other error leaves the aggregate unchanged and is returned
as it is; and a `nil` candidate is a no-op returning `nil`.  (An
aggregate candidate is the subject of claim C2; the kind tests happen in
the order listed, as in the source.) -/
theorem Capture_kind_classification (e : CorpusErrors) (c : GoErr)
    (hna : isAggregate c = false) :
    (IsValidationError c = true →
      Capture e (some c) = (e ++ [c], none)) ∧
    (IsValidationError c = false → errorsIs c (.sentinel .emptyCorpus) = true →
      Capture e (some c) = (e ++ [c], some (.corpus (e ++ [c])))) ∧
    (IsValidationError c = false → errorsIs c (.sentinel .emptyCorpus) = false →
      Capture e (some c) = (e, some c)) ∧
    Capture e none = (e, none) := by
  refine ⟨?_, ?_, ?_, rfl⟩
  · intro h
    exact CaptureErr_validation e c hna h
  · intro h1 h2
    show CaptureErr e c = _
    rw [CaptureErr_emptyCorpus e c hna h1 h2]
  · intro h1 h2
    exact CaptureErr_passthrough e c hna h1 h2

theorem Capture_kind_classification_witness :
    (Capture [.external 1 "prior"]
        (some (.wrap 0 "reading: bad entry" (.sentinel .malformedEntry)))
      = ([.external 1 "prior", .wrap 0 "reading: bad entry" (.sentinel .malformedEntry)],
         none)) ∧
    (Capture [.external 1 "prior"] (some (.sentinel .emptyCorpus))
      = ([.external 1 "prior", .sentinel .emptyCorpus],
         some (.corpus [.external 1 "prior", .sentinel .emptyCorpus]))) ∧
    (Capture [.external 1 "prior"] (some (.external 2 "io fail"))
      = ([.external 1 "prior"], some (.external 2 "io fail"))) := by
  refine ⟨?_, ?_, ?_⟩
  · exact (Capture_kind_classification [.external 1 "prior"]
      (.wrap 0 "reading: bad entry" (.sentinel .malformedEntry)) rfl).1
      (by simp [IsValidationError_sentinel])
  · exact (Capture_kind_classification [.external 1 "prior"]
      (.sentinel .emptyCorpus) rfl).2.1
      (by rw [IsValidationError_sentinel]; simp) (by simp)
  · exact (Capture_kind_classification [.external 1 "prior"]
      (.external 2 "io fail") rfl).2.2.1
      (by simp) (by simp)

/-- C2: capturing an aggregate candidate captures its elements one at a
time, in their stored order; the first element whose individual capture
yields a non-`nil` signal stops the loop at once, with the remaining
elements left unprocessed, and the whole capture's outcome is that
element's capture outcome.  (`CaptureErr_corpus` is the loop itself; in
particular a nested `ErrEmptyCorpus` element propagates the abort signal
up through nested `Capture` calls, as the witness shows.) -/
theorem Capture_aggregate_elements (e e' : CorpusErrors) (pre post : List GoErr) (c : GoErr)
    (h1 : CaptureAll e pre = (e', none))
    (h2 : (CaptureErr e' c).2 ≠ none) :
    Capture e (some (.corpus (pre ++ c :: post))) = CaptureErr e' c := by
  show CaptureErr e (.corpus (pre ++ c :: post)) = _
  rw [CaptureErr_corpus]
  rw [CaptureAll_append_of_none e e' pre (c :: post) h1]
  rw [CaptureAll_cons]
  rcases hc : CaptureErr e' c with ⟨ec, sig⟩
  cases sig with
  | none =>
    rw [hc] at h2
    simp at h2
  | some s =>
    simp only [hc]

theorem Capture_aggregate_elements_witness :
    Capture [] (some (.corpus ([] ++ .corpus [.sentinel .emptyCorpus] :: [.external 7 "later"])))
      = CaptureErr [] (.corpus [.sentinel .emptyCorpus]) :=
  Capture_aggregate_elements [] [] [] [.external 7 "later"]
    (.corpus [.sentinel .emptyCorpus])
    (CaptureAll_nil [])
    (by
      rw [CaptureErr_corpus, CaptureAll_cons, CaptureErr_EC]
      intro hcon
      exact Option.noConfusion hcon)

@[simp] theorem isAggregate_sentinel (k : ErrKind) : isAggregate (.sentinel k) = false := rfl

@[simp] theorem isAggregate_wrap (i : Nat) (m : String) (inner : GoErr) :
    isAggregate (.wrap i m inner) = false := rfl

@[simp] theorem isAggregate_external (i : Nat) (m : String) :
    isAggregate (.external i m) = false := rfl

@[simp] theorem isAggregate_corpus (es : List GoErr) : isAggregate (.corpus es) = true := rfl

@[simp] theorem goEq_external_external (i j : Nat) (m m' : String) :
    goEq (.external i m) (.external j m') = decide (i = j) := rfl

@[simp] theorem goEq_wrap_wrap (i j : Nat) (m m' : String) (x y : GoErr) :
    goEq (.wrap i m x) (.wrap j m' y) = decide (i = j) := rfl

/-- Generic `errors.Is` of an aggregate against a plain (non-aggregate)
target walks the last element and then the `Unwrap` chain, so it holds
iff some element of the aggregate matches the target. -/
theorem errorsIs_corpus_any (es : List GoErr) (t : GoErr) (ht : isAggregate t = false) :
    errorsIs (.corpus es) t = es.any fun el => errorsIs el t := by
  induction es using List.reverseRecOn with
  | nil =>
    rw [errorsIs_corpus, corpusErrorsIs_plain_nil t ht]
    simp
  | append_singleton es a ih =>
    rw [errorsIs_corpus,
      corpusErrorsIs_plain_getLast (es ++ [a]) a t (List.getLast?_concat es) ht,
      List.dropLast_concat]
    by_cases hes : es.isEmpty
    · have : es = [] := by simpa using hes
      subst this
      simp
    · simp only [hes, if_false, ih]
      simp [List.any_append, Bool.or_comm]

/-- C9: `CorpusErrors.Unwrap` returns the aggregate without its last
element, converted to `nil` when that removal leaves it empty (and `nil`
when the aggregate is already empty); `CorpusErrors.AsError` is `nil`
exactly on the empty aggregate, and otherwise the aggregate itself. -/
theorem Unwrap_AsError_spec (es : CorpusErrors) :
    (UnwrapErrs es = if es.dropLast.isEmpty then none else some (.corpus es.dropLast)) ∧
    (AsError es = none ↔ es = []) ∧
    (es ≠ [] → AsError es = some (.corpus es)) := by
  refine ⟨?_, ?_, AsError_ne_nil es⟩
  · unfold UnwrapErrs
    by_cases h : es.isEmpty
    · have : es = [] := by simpa using h
      subst this
      simp [AsError]
    · rw [if_neg h]
      unfold AsError
      rfl
  · constructor
    · intro h
      by_contra hne
      rw [AsError_ne_nil es hne] at h
      cases h
    · intro h
      subst h
      rfl

theorem Unwrap_AsError_spec_witness :
    UnwrapErrs [.external 3 "a", .sentinel .emptyCorpus]
      = some (.corpus [.external 3 "a"]) ∧
    AsError [.external 3 "a", .sentinel .emptyCorpus]
      = some (.corpus [.external 3 "a", .sentinel .emptyCorpus]) := by
  have h := Unwrap_AsError_spec [.external 3 "a", .sentinel .emptyCorpus]
  refine ⟨?_, h.2.2 (by simp)⟩
  rw [h.1]
  rfl

/-- C3: the aggregate's matching relation (its `Is` method, as used by
generic `errors.Is`): when the target is an aggregate, two empties
match, exactly one empty never matches, and two non-empty aggregates
match iff every element of the target is matched by the receiver via the
generic relation — which, for a plain element, holds iff some element of
the receiver matches it.  When the target is a plain error, the receiver
matches iff the generic relation holds between its last element and the
target ("the target matches the receiver's last element via the same
relation", read as in the source's `errors.Is(e.last(), target)`), and
an empty receiver never matches a plain target.  The claim's examples:
`{A,B}` matches `{A}` and `{B}` but not `{A,B,C}`, and the empty
aggregate matches only the empty aggregate. -/
theorem corpus_matching_relation :
    (corpusErrorsIs [] (.corpus []) = true) ∧
    (∀ es ts : List GoErr, (es = [] ∧ ts ≠ []) ∨ (es ≠ [] ∧ ts = []) →
      corpusErrorsIs es (.corpus ts) = false) ∧
    (∀ es ts : List GoErr, es ≠ [] → ts ≠ [] →
      corpusErrorsIs es (.corpus ts) = (ts.all fun t => errorsIs (.corpus es) t)) ∧
    (∀ (es : List GoErr) (t : GoErr), isAggregate t = false →
      errorsIs (.corpus es) t = (es.any fun el => errorsIs el t)) ∧
    (∀ (es : List GoErr) (l t : GoErr), isAggregate t = false → es.getLast? = some l →
      corpusErrorsIs es t = errorsIs l t) ∧
    (∀ t : GoErr, isAggregate t = false → corpusErrorsIs [] t = false) ∧
    (errorsIs (.corpus [.external 1 "A", .external 2 "B"])
      (.corpus [.external 1 "A"]) = true) ∧
    (errorsIs (.corpus [.external 1 "A", .external 2 "B"])
      (.corpus [.external 2 "B"]) = true) ∧
    (errorsIs (.corpus [.external 1 "A", .external 2 "B"])
      (.corpus [.external 1 "A", .external 2 "B", .external 3 "C"]) = false) ∧
    (∀ t : GoErr, errorsIs (.corpus []) t = true ↔ t = .corpus []) := by
  refine ⟨?_, ?_, ?_, ?_, ?_, ?_, ?_, ?_, ?_, ?_⟩
  · rw [corpusErrorsIs_corpus]
    simp
  · rintro es ts (⟨he, ht⟩ | ⟨he, ht⟩)
    · subst he
      rw [corpusErrorsIs_corpus]
      have : ts.isEmpty = false := by simpa using ht
      simp [this]
    · subst ht
      rw [corpusErrorsIs_corpus]
      have : es.isEmpty = false := by simpa using he
      simp [this]
  · intro es ts he ht
    rw [corpusErrorsIs_corpus]
    have h1 : es.isEmpty = false := by simpa using he
    have h2 : ts.isEmpty = false := by simpa using ht
    simp [h1, h2]
  · exact fun es t ht => errorsIs_corpus_any es t ht
  · exact fun es l t ht hl => corpusErrorsIs_plain_getLast es l t hl ht
  · exact fun t ht => corpusErrorsIs_plain_nil t ht
  · rw [errorsIs_corpus, corpusErrorsIs_corpus]
    simp [errorsIs_corpus_any]
  · rw [errorsIs_corpus, corpusErrorsIs_corpus]
    simp [errorsIs_corpus_any]
  · have eAB : ∀ x : GoErr, isAggregate x = false →
        errorsIs (.corpus [.external 1 "A", .external 2 "B"]) x
          = (errorsIs (.external 1 "A") x || errorsIs (.external 2 "B") x) := by
      intro x hx
      rw [errorsIs_corpus_any _ _ hx]
      simp
    have eA : ∀ x : GoErr, isAggregate x = false →
        errorsIs (.corpus [.external 1 "A"]) x = errorsIs (.external 1 "A") x := by
      intro x hx
      rw [errorsIs_corpus_any _ _ hx]
      simp
    rw [errorsIs_corpus, corpusErrorsIs_corpus]
    simp only [List.dropLast_cons₂, List.dropLast_single]
    rw [errorsIs_corpus [.external 1 "A"], corpusErrorsIs_corpus]
    simp [eAB, eA]
  · intro t
    cases t with
    | corpus ts =>
      rw [errorsIs_corpus, corpusErrorsIs_corpus]
      cases ts with
      | nil => simp
      | cons a u => simp
    | sentinel k =>
      rw [errorsIs_corpus, corpusErrorsIs_plain_nil _ (by simp)]
      simp
    | wrap i m inner =>
      rw [errorsIs_corpus, corpusErrorsIs_plain_nil _ (by simp)]
      simp
    | external i m =>
      rw [errorsIs_corpus, corpusErrorsIs_plain_nil _ (by simp)]
      simp

theorem corpus_matching_relation_witness :
    corpusErrorsIs [.external 1 "A", .external 2 "B"] (.corpus [.external 2 "B"])
      = ([.external 2 "B"].all fun t =>
          errorsIs (.corpus [.external 1 "A", .external 2 "B"]) t) :=
  corpus_matching_relation.2.2.1 [.external 1 "A", .external 2 "B"] [.external 2 "B"]
    (by simp) (by simp)

/-- The surviving-lines computation of `readLines`, rephrased: trim every
remaining line, then drop the blank ones, keeping the original order. -/
theorem filterMap_trim_eq (l : List String) :
    (l.filterMap fun x =>
       if (trimSpace x).isEmpty then none else some (trimSpace x))
      = (l.map trimSpace).filter fun t => !t.isEmpty := by
  induction l with
  | nil => rfl
  | cons a t ih =>
    simp only [List.filterMap_cons, List.map_cons, List.filter_cons]
    by_cases h : (trimSpace a).isEmpty
    · simp [h, ih]
    · simp [h, ih]

/-- C6: the entry reader on a byte string: the bytes are split on line
breaks (a trailing carriage return on line 1 is stripped before the
comparison); fewer than two lines is `ErrMalformedEntry`; a first line
differing from `encVersion1` is `ErrUnsupportedVersion` wrapped with the
observed text (quoted) in the message; otherwise the remaining lines are
trimmed, blank lines dropped, the survivors in original order are the
returned values, and zero survivors is `ErrMalformedEntry`. -/
theorem readLines_spec (b : String) :
    (((splitList b.data).map String.mk).length < 2 →
      readLines (.ok b) = .error (.sentinel .malformedEntry)) ∧
    (2 ≤ ((splitList b.data).map String.mk).length →
      trimCR (((splitList b.data).map String.mk).headD "") ≠ encVersion1 →
      readLines (.ok b) = .error (.wrap 0
        (errMsg (.sentinel .unsupportedVersion) ++ ": " ++
          goQuote (trimCR (((splitList b.data).map String.mk).headD "")))
        (.sentinel .unsupportedVersion))) ∧
    (2 ≤ ((splitList b.data).map String.mk).length →
      trimCR (((splitList b.data).map String.mk).headD "") = encVersion1 →
      ((((splitList b.data).map String.mk).tail.map trimSpace).filter
          (fun l => !l.isEmpty) = [] →
        readLines (.ok b) = .error (.sentinel .malformedEntry)) ∧
      ((((splitList b.data).map String.mk).tail.map trimSpace).filter
          (fun l => !l.isEmpty) ≠ [] →
        readLines (.ok b) = .ok
          ((((splitList b.data).map String.mk).tail.map trimSpace).filter
            fun l => !l.isEmpty))) := by
  refine ⟨?_, ?_, ?_⟩
  · intro h
    simp only [readLines]
    rw [if_pos h]
  · intro h1 h2
    simp only [readLines]
    rw [if_neg (by omega), if_pos h2]
  · intro h1 h2
    simp only [readLines]
    rw [if_neg (by omega), if_neg (fun hc => hc h2), filterMap_trim_eq]
    constructor
    · intro he
      rw [he]
      simp
    · intro hne
      have hlen : ¬ ((((splitList b.data).map String.mk).tail.map trimSpace).filter
          (fun l => !l.isEmpty)).length < 1 := by
        have := List.length_pos.mpr hne
        omega
      rw [if_neg hlen]

theorem readLines_spec_witness :
    2 ≤ ((splitList ("go test fuzz v1\r\nuint(7)\n" : String).data).map String.mk).length ∧
    readLines (.ok "go test fuzz v1\r\nuint(7)\n") = .ok
      ((((splitList ("go test fuzz v1\r\nuint(7)\n" : String).data).map
          String.mk).tail.map trimSpace).filter fun l => !l.isEmpty) := by
  refine ⟨by decide, ?_⟩
  exact ((readLines_spec "go test fuzz v1\r\nuint(7)\n").2.2
    (by decide) (by decide)).2 (by decide)

/-- The text `dumpLines` writes for a list of values: a tab, the value
verbatim, a comma and a newline, per value. -/
def renderedValues : List String → String
  | [] => ""
  | v :: rest => "\t" ++ v ++ ",\n" ++ renderedValues rest

theorem write_ok (w : GoWriter) (s : SinkState) (str : String) (h : w.failAt = none) :
    write w s str = ({ out := s.out ++ str, calls := s.calls + 1 }, none) := by
  simp [write, h]

theorem write_fail (w : GoWriter) (s : SinkState) (str : String) (h : w.failAt = some s.calls) :
    write w s str = ({ s with calls := s.calls + 1 }, some w.failErr) := by
  simp [write, h]

theorem dumpLines_ok (w : GoWriter) (h : w.failAt = none) (lines : List String) (s : SinkState) :
    dumpLines w s lines =
      ({ out := s.out ++ renderedValues lines, calls := s.calls + lines.length }, none) := by
  induction lines generalizing s with
  | nil =>
    simp only [dumpLines, renderedValues, List.length_nil, Nat.add_zero, String.append_empty]
  | cons v rest ih =>
    simp only [dumpLines]
    rw [write_ok w s _ h]
    show dumpLines w { out := s.out ++ ("\t" ++ v ++ ",\n"), calls := s.calls + 1 } rest = _
    rw [ih]
    simp only [renderedValues, Prod.mk.injEq, SinkState.mk.injEq, List.length_cons]
    refine ⟨⟨?_, ?_⟩, trivial⟩
    · simp [String.append_assoc]
    · omega

/-- C7: exact rendering.  A directory whose valid entries are the
single-argument values `uint(3)` and `uint(5)` (in listing order)
renders exactly `{\n\tuint(3),\n\tuint(5),\n}\n`; a directory whose
valid entries are the two-argument tuples `(string("foo"), uint(8))`
then `(string("bar"), uint(13))` renders exactly
`{{\n\tstring("foo"),\n\tuint(8),\n}, {\n\tstring("bar"),\n\tuint(13),\n}}\n`
— arity 1 uses the flat delimiters, arity over 1 the doubled ones with
`}, {` between entries, and each value renders as tab, value, comma,
newline.  Both scans return a `nil` error. -/
theorem DumpDir_rendering_examples :
    (DumpDir { failAt := none, failErr := .external 0 "unused" }
      [⟨"a", true, .ok "go test fuzz v1\nuint(3)\n"⟩,
       ⟨"b", true, .ok "go test fuzz v1\nuint(5)\n"⟩]).1.out
      = "\x7b\n\tuint(3),\n\tuint(5),\n\x7d\n" ∧
    (DumpDir { failAt := none, failErr := .external 0 "unused" }
      [⟨"a", true, .ok "go test fuzz v1\nuint(3)\n"⟩,
       ⟨"b", true, .ok "go test fuzz v1\nuint(5)\n"⟩]).2
      = none ∧
    (DumpDir { failAt := none, failErr := .external 0 "unused" }
      [⟨"a", true, .ok "go test fuzz v1\nstring(\"foo\")\nuint(8)\n"⟩,
       ⟨"b", true, .ok "go test fuzz v1\nstring(\"bar\")\nuint(13)\n"⟩]).1.out
      = "\x7b\x7b\n\tstring(\"foo\"),\n\tuint(8),\n\x7d, \x7b\n\tstring(\"bar\"),\n\tuint(13),\n\x7d\x7d\n" ∧
    (DumpDir { failAt := none, failErr := .external 0 "unused" }
      [⟨"a", true, .ok "go test fuzz v1\nstring(\"foo\")\nuint(8)\n"⟩,
       ⟨"b", true, .ok "go test fuzz v1\nstring(\"bar\")\nuint(13)\n"⟩]).2
      = none := by
  exact ⟨rfl, rfl, rfl, rfl⟩

@[simp] theorem Capture_some (e : CorpusErrors) (x : GoErr) :
    Capture e (some x) = CaptureErr e x := rfl

theorem corpusFiles_empty (listing : List FileEntry) (h : getFiles listing = []) :
    corpusFiles listing = .error (.sentinel .emptyCorpus) := by
  simp [corpusFiles, h]

theorem corpusFiles_ne (listing : List FileEntry) (h : getFiles listing ≠ []) :
    corpusFiles listing = .ok (getFiles listing) := by
  have : (getFiles listing).isEmpty = false := by simpa using h
  simp [corpusFiles, this]

/-- The error component of a file's `readLines` outcome (with an
arbitrary default on files that read successfully; it is only ever used
under hypotheses saying that the file fails). -/
def fileFailure (f : FileEntry) : GoErr :=
  match readLines f.content with
  | .error v => v
  | .ok _ => .sentinel .malformedEntry

theorem isAggregate_readErr (v : GoErr) (n : String) : isAggregate (readErr v n) = false := rfl

theorem IsValidationError_readErr (v : GoErr) (n : String) :
    IsValidationError (readErr v n) = IsValidationError v := by
  simp [readErr]

/-- `firstValidFileLines` over files that all fail validation: every
failure is captured (wrapped with the file's name, in listing order) and
finally `ErrEmptyCorpus` is captured, so the aggregate is returned as
the signal. -/
theorem firstValid_allFail (fs : List FileEntry) (errs : CorpusErrors)
    (h : ∀ g ∈ fs, ∃ v, readLines g.content = .error v ∧ IsValidationError v = true) :
    firstValidFileLines errs fs
      = ([], [], some (.corpus (errs ++ fs.map (fun g => readErr (fileFailure g) g.name)
          ++ [.sentinel .emptyCorpus]))) := by
  induction fs generalizing errs with
  | nil =>
    simp only [firstValidFileLines, Capture_some]
    rw [CaptureErr_EC]
    simp
  | cons g gs ih =>
    obtain ⟨v, hv, hval⟩ := h g (by simp)
    have hcap : CaptureErr errs (readErr v g.name) = (errs ++ [readErr v g.name], none) :=
      CaptureErr_validation errs _ (isAggregate_readErr v g.name)
        (by rw [IsValidationError_readErr, hval])
    simp only [firstValidFileLines, hv, Capture_some, hcap]
    rw [ih (errs ++ [readErr v g.name]) fun x hx => h x (by simp [hx])]
    simp [fileFailure, hv, List.append_assoc]

/-- `DumpDir`'s re-capture of the phase-1 aggregate built from
validation failures followed by `ErrEmptyCorpus`: every element is
re-absorbed in order and the `ErrEmptyCorpus` element aborts again. -/
theorem Capture_validPrefix_EC (l : List GoErr)
    (h : ∀ x ∈ l, isAggregate x = false ∧ IsValidationError x = true) :
    Capture [] (some (.corpus (l ++ [.sentinel .emptyCorpus])))
      = (l ++ [.sentinel .emptyCorpus], some (.corpus (l ++ [.sentinel .emptyCorpus]))) := by
  rw [Capture_some, CaptureErr_corpus]
  have h1 : CaptureAll [] l = ([] ++ l, none) := CaptureAll_validation [] l h
  rw [CaptureAll_append_of_none [] ([] ++ l) l [.sentinel .emptyCorpus] h1]
  rw [CaptureAll_cons, CaptureErr_EC]
  simp

/-- C4: a directory with zero regular files makes the scan return the
fatal `ErrEmptyCorpus` at once, with no output; a directory whose
regular files all fail validation makes the scan return — still with no
output — a non-empty aggregate that matches `ErrEmptyCorpus` via the
matching relation and contains the (wrapped) validation error of every
file tried. -/
theorem DumpDir_empty_and_invalid (w : GoWriter) (listing : List FileEntry) :
    (getFiles listing = [] →
      DumpDir w listing = ({ out := "", calls := 0 }, some (.sentinel .emptyCorpus))) ∧
    ((∀ f ∈ getFiles listing, ∃ v, readLines f.content = .error v ∧ IsValidationError v = true) →
      getFiles listing ≠ [] →
      DumpDir w listing = ({ out := "", calls := 0 },
        some (.corpus ((getFiles listing).map (fun g => readErr (fileFailure g) g.name)
          ++ [.sentinel .emptyCorpus])))
      ∧ errorsIs (.corpus ((getFiles listing).map (fun g => readErr (fileFailure g) g.name)
          ++ [.sentinel .emptyCorpus])) (.sentinel .emptyCorpus) = true
      ∧ ∀ f ∈ getFiles listing,
          readErr (fileFailure f) f.name
            ∈ (getFiles listing).map (fun g => readErr (fileFailure g) g.name)
              ++ [.sentinel .emptyCorpus]) := by
  constructor
  · intro h
    simp only [DumpDir, corpusFiles_empty listing h]
  · intro hval hne
    have hfv := firstValid_allFail (getFiles listing) [] hval
    rw [List.nil_append] at hfv
    have hcap := Capture_validPrefix_EC
      ((getFiles listing).map (fun g => readErr (fileFailure g) g.name))
      (by
        intro x hx
        obtain ⟨g, hg, rfl⟩ := List.mem_map.mp hx
        obtain ⟨v, hv, hvv⟩ := hval g hg
        refine ⟨isAggregate_readErr _ _, ?_⟩
        rw [IsValidationError_readErr]
        have : fileFailure g = v := by simp [fileFailure, hv]
        rw [this, hvv])
    refine ⟨?_, ?_, ?_⟩
    · simp only [DumpDir, corpusFiles_ne listing hne, hfv, hcap]
    · rw [errorsIs_corpus,
        corpusErrorsIs_plain_getLast _ (.sentinel .emptyCorpus) _
          (List.getLast?_concat _) (by simp)]
      simp
    · intro f hf
      exact List.mem_append_left _ (List.mem_map_of_mem _ hf)

theorem DumpDir_empty_and_invalid_witness :
    DumpDir { failAt := none, failErr := .external 0 "unused" } [⟨"d", false, .ok ""⟩]
      = ({ out := "", calls := 0 }, some (.sentinel .emptyCorpus)) ∧
    DumpDir { failAt := none, failErr := .external 0 "unused" } [⟨"x", true, .ok "garbage"⟩]
      = ({ out := "", calls := 0 },
         some (.corpus [readErr (.sentinel .malformedEntry) "x", .sentinel .emptyCorpus])) := by
  constructor
  · exact (DumpDir_empty_and_invalid { failAt := none, failErr := .external 0 "unused" }
      [⟨"d", false, .ok ""⟩]).1 rfl
  · exact ((DumpDir_empty_and_invalid { failAt := none, failErr := .external 0 "unused" }
      [⟨"x", true, .ok "garbage"⟩]).2
      (by
        intro f hf
        have : f = ⟨"x", true, .ok "garbage"⟩ := by
          simpa [getFiles] using hf
        subst this
        exact ⟨.sentinel .malformedEntry, rfl, by simp [IsValidationError_sentinel]⟩)
      (by simp [getFiles])).1

/-- `firstValidFileLines` over a prefix of validation failures followed
by a valid file: the failures are captured in order, and the valid
file's lines together with the listing tail from that file are
returned. -/
theorem firstValid_success (bad : List FileEntry) (f : FileEntry) (rest : List FileEntry)
    (errs : CorpusErrors) (lines : List String)
    (hbad : ∀ g ∈ bad, ∃ v, readLines g.content = .error v ∧ IsValidationError v = true)
    (hf : readLines f.content = .ok lines) :
    firstValidFileLines errs (bad ++ f :: rest)
      = (lines, f :: rest,
         AsError (errs ++ bad.map (fun g => readErr (fileFailure g) g.name))) := by
  induction bad generalizing errs with
  | nil =>
    simp only [List.nil_append, firstValidFileLines, hf]
    simp
  | cons g gs ih =>
    obtain ⟨v, hv, hval⟩ := hbad g (by simp)
    have hcap : CaptureErr errs (readErr v g.name) = (errs ++ [readErr v g.name], none) :=
      CaptureErr_validation errs _ (isAggregate_readErr v g.name)
        (by rw [IsValidationError_readErr, hval])
    simp only [List.cons_append, firstValidFileLines, hv, Capture_some, hcap, List.append_eq]
    rw [ih (errs ++ [readErr v g.name]) fun x hx => hbad x (by simp [hx])]
    simp [fileFailure, hv, List.append_assoc]

/-- The sink output produced by `dumpFiles` does not depend on the
accumulated error list: the errors only decide what is reported, never
what is written. -/
theorem dumpFiles_out_indep (w : GoWriter) (argCount : Nat) :
    ∀ (fs : List FileEntry) (s : SinkState) (errs errs' : CorpusErrors),
      (dumpFiles w s errs argCount fs).1 = (dumpFiles w s errs' argCount fs).1 := by
  intro fs
  induction fs with
  | nil =>
    intro s errs errs'
    simp [dumpFiles]
  | cons f rest ih =>
    intro s errs errs'
    rcases hr : readLines f.content with v | lines
    · simp only [dumpFiles, hr, Capture_some]
      by_cases h1 : IsValidationError (readErr v f.name) = true
      · rw [CaptureErr_validation errs _ (isAggregate_readErr _ _) h1,
          CaptureErr_validation errs' _ (isAggregate_readErr _ _) h1]
        exact ih s _ _
      · by_cases h2 : errorsIs (readErr v f.name) (.sentinel .emptyCorpus) = true
        · rw [CaptureErr_emptyCorpus errs _ (isAggregate_readErr _ _) (by simpa using h1) h2,
            CaptureErr_emptyCorpus errs' _ (isAggregate_readErr _ _) (by simpa using h1) h2]
        · rw [CaptureErr_passthrough errs _ (isAggregate_readErr _ _) (by simpa using h1)
              (by simpa using h2),
            CaptureErr_passthrough errs' _ (isAggregate_readErr _ _) (by simpa using h1)
              (by simpa using h2)]
    · simp only [dumpFiles, hr]
      by_cases hl : lines.length ≠ argCount
      · rw [if_pos hl, if_pos hl]
        exact ih s _ _
      · rw [if_neg hl, if_neg hl]
        by_cases hm : argCount > 1
        · rw [if_pos hm, if_pos hm]
          rcases hw : write w s (multiArgSep.In ++ "\n") with ⟨s1, sig⟩
          cases sig with
          | some e => rfl
          | none =>
            show (match dumpLines w s1 lines with
                  | (s'', some e) => (s'', some e)
                  | (s'', none) => dumpFiles w s'' errs argCount rest).1
                = (match dumpLines w s1 lines with
                  | (s'', some e) => (s'', some e)
                  | (s'', none) => dumpFiles w s'' errs' argCount rest).1
            rcases hd : dumpLines w s1 lines with ⟨s2, sig2⟩
            cases sig2 with
            | some e => rfl
            | none => exact ih s2 _ _
        · rw [if_neg hm, if_neg hm]
          rcases hd : dumpLines w s lines with ⟨s2, sig2⟩
          cases sig2 with
          | some e => rfl
          | none => exact ih s2 _ _

/-- C5: the arity of a scan is the argument count of the first file (in
listing order) that validates; a later file that validates with a
different count contributes nothing to the sink state and is recorded as
a recoverable `ErrInconsistentArgCount` whose message carries the
literal "want X, got Y" detail; a later file that validates with the
matching count is emitted (separator line first when the arity is
above one).  The final conjunct shows the written output never depends
on the recorded errors, so a skipped entry indeed never appears. -/
theorem arity_fixed_and_inconsistent_reported
    (w : GoWriter) (s : SinkState) (errs : CorpusErrors) (argCount : Nat)
    (f : FileEntry) (rest : List FileEntry) (lines : List String)
    (hv : readLines f.content = .ok lines) :
    (∀ bad more : List FileEntry,
      (∀ g ∈ bad, ∃ u, readLines g.content = .error u ∧ IsValidationError u = true) →
      firstValidFileLines [] (bad ++ f :: more)
        = (lines, f :: more, AsError (bad.map fun g => readErr (fileFailure g) g.name))) ∧
    (lines.length ≠ argCount →
      dumpFiles w s errs argCount (f :: rest)
        = dumpFiles w s (errs ++ [inconsistentCountErr argCount lines.length f.name])
            argCount rest) ∧
    (errMsg (inconsistentCountErr argCount lines.length f.name)
        = "reading " ++ goQuote f.name ++ ": " ++
          (errMsg (.sentinel .inconsistentArgCount) ++ ": want " ++ toString argCount ++
            ", got " ++ toString lines.length)) ∧
    (("want " ++ toString argCount ++ ", got " ++ toString lines.length).data
      <:+: (errMsg (inconsistentCountErr argCount lines.length f.name)).data) ∧
    (IsValidationError (inconsistentCountErr argCount lines.length f.name) = true) ∧
    (w.failAt = none → lines.length = argCount →
      dumpFiles w s errs argCount (f :: rest)
        = dumpFiles w
            { out := s.out ++ (if argCount > 1 then multiArgSep.In ++ "\n" else "")
                ++ renderedValues lines,
              calls := s.calls + (if argCount > 1 then 1 else 0) + lines.length }
            errs argCount rest) ∧
    (∀ (fs : List FileEntry) (s' : SinkState) (errs1 errs2 : CorpusErrors),
      (dumpFiles w s' errs1 argCount fs).1 = (dumpFiles w s' errs2 argCount fs).1) := by
  have hmsg : errMsg (inconsistentCountErr argCount lines.length f.name)
      = "reading " ++ goQuote f.name ++ ": " ++
        (errMsg (.sentinel .inconsistentArgCount) ++ ": want " ++ toString argCount ++
          ", got " ++ toString lines.length) := by
    simp [inconsistentCountErr, readErr]
  refine ⟨?_, ?_, hmsg, ?_, ?_, ?_, ?_⟩
  · intro bad more hbad
    have := firstValid_success bad f more [] lines hbad hv
    rwa [List.nil_append] at this
  · intro hne
    simp only [dumpFiles, hv]
    rw [if_pos hne]
  · rw [hmsg]
    refine List.IsSuffix.isInfix
      ⟨("reading " ++ goQuote f.name ++ ": ").data ++
        (errMsg (.sentinel .inconsistentArgCount)).data ++ (": " : String).data, ?_⟩
    simp only [String.data_append]
    simp [List.append_assoc]
  · simp [inconsistentCountErr, readErr, IsValidationError_sentinel]
  · intro hw heq
    simp only [dumpFiles, hv]
    rw [if_neg (fun hc => hc heq)]
    by_cases hm : argCount > 1
    · rw [if_pos hm, write_ok w s _ hw]
      show (match dumpLines w { out := s.out ++ (multiArgSep.In ++ "\n"), calls := s.calls + 1 }
              lines with
            | (s'', some e) => (s'', some e)
            | (s'', none) => dumpFiles w s'' errs argCount rest) = _
      rw [dumpLines_ok w hw]
      show dumpFiles w
          { out := s.out ++ (multiArgSep.In ++ "\n") ++ renderedValues lines,
            calls := s.calls + 1 + lines.length } errs argCount rest = _
      rw [if_pos hm, if_pos hm]
    · rw [if_neg hm]
      show (match dumpLines w s lines with
            | (s'', some e) => (s'', some e)
            | (s'', none) => dumpFiles w s'' errs argCount rest) = _
      rw [dumpLines_ok w hw]
      show dumpFiles w
          { out := s.out ++ renderedValues lines,
            calls := s.calls + lines.length } errs argCount rest = _
      rw [if_neg hm, if_neg hm]
      rw [String.append_empty]
      simp
  · exact fun fs s' errs1 errs2 => dumpFiles_out_indep w argCount fs s' errs1 errs2

theorem arity_fixed_and_inconsistent_reported_witness :
    dumpFiles { failAt := none, failErr := .external 0 "unused" } { out := "", calls := 0 }
        [] 1 [⟨"w", true, .ok "go test fuzz v1\na\nb\n"⟩]
      = dumpFiles { failAt := none, failErr := .external 0 "unused" } { out := "", calls := 0 }
          ([] ++ [inconsistentCountErr 1 2 "w"]) 1 [] ∧
    IsValidationError (inconsistentCountErr 1 2 "w") = true := by
  have h := arity_fixed_and_inconsistent_reported
    { failAt := none, failErr := .external 0 "unused" } { out := "", calls := 0 }
    [] 1 ⟨"w", true, .ok "go test fuzz v1\na\nb\n"⟩ [] ["a", "b"] rfl
  exact ⟨h.2.1 (by decide), h.2.2.2.2.1⟩

theorem write_ok_ne (w : GoWriter) (s : SinkState) (str : String)
    (h : w.failAt ≠ some s.calls) :
    write w s str = ({ out := s.out ++ str, calls := s.calls + 1 }, none) := by
  simp [write, h]

/-- `dumpLines` succeeds as long as the failing call index lies beyond
the calls it makes. -/
theorem dumpLines_ok_before (w : GoWriter) (k : Nat) (hk : w.failAt = some k) :
    ∀ (lines : List String) (s : SinkState), s.calls + lines.length ≤ k →
      dumpLines w s lines
        = ({ out := s.out ++ renderedValues lines, calls := s.calls + lines.length }, none) := by
  intro lines
  induction lines with
  | nil =>
    intro s h
    simp only [dumpLines, renderedValues, List.length_nil, Nat.add_zero, String.append_empty]
  | cons v rest ih =>
    intro s h
    simp only [dumpLines]
    rw [write_ok_ne w s _ (by
      rw [hk]
      intro hc
      injection hc with hc'
      simp at h
      omega)]
    show dumpLines w { out := s.out ++ ("\t" ++ v ++ ",\n"), calls := s.calls + 1 } rest = _
    rw [ih _ (by simp at h ⊢; omega)]
    simp only [renderedValues, Prod.mk.injEq, SinkState.mk.injEq, List.length_cons]
    refine ⟨⟨?_, ?_⟩, trivial⟩
    · simp [String.append_assoc]
    · omega

theorem readLines_ok_ne_nil (c : Except GoErr String) (lines : List String)
    (h : readLines c = .ok lines) : lines ≠ [] := by
  intro he
  subst he
  cases c with
  | error e => simp [readLines] at h
  | ok b =>
    simp only [readLines] at h
    split at h
    · exact Except.noConfusion h
    · split at h
      · exact Except.noConfusion h
      · split at h
        · exact Except.noConfusion h
        · rename_i hlen
          injection h with h'
          apply hlen
          rw [h']
          simp

theorem Capture_AsError_validation (l : List GoErr)
    (h : ∀ x ∈ l, isAggregate x = false ∧ IsValidationError x = true) :
    Capture [] (AsError l) = (l, none) := by
  by_cases hl : l = []
  · subst hl
    simp [AsError]
  · rw [AsError_ne_nil _ hl, Capture_some, CaptureErr_corpus]
    have := CaptureAll_validation [] l h
    rwa [List.nil_append] at this

theorem dumpFiles_validation_step (w : GoWriter) (s : SinkState) (errs : CorpusErrors)
    (argCount : Nat) (f : FileEntry) (rest : List FileEntry) (v : GoErr)
    (hv : readLines f.content = .error v) (hval : IsValidationError v = true) :
    dumpFiles w s errs argCount (f :: rest)
      = dumpFiles w s (errs ++ [readErr v f.name]) argCount rest := by
  have hcap : CaptureErr errs (readErr v f.name) = (errs ++ [readErr v f.name], none) :=
    CaptureErr_validation errs (readErr v f.name) (isAggregate_readErr v f.name)
      (by rw [IsValidationError_readErr, hval])
  simp only [dumpFiles, hv, Capture_some, hcap]

theorem dumpFiles_readfail_step (w : GoWriter) (s : SinkState) (errs : CorpusErrors)
    (argCount : Nat) (g : FileEntry) (rest : List FileEntry) (v : GoErr)
    (hv : readLines g.content = .error v)
    (h1 : IsValidationError v = false)
    (h2 : errorsIs v (.sentinel .emptyCorpus) = false) :
    dumpFiles w s errs argCount (g :: rest) = (s, some (readErr v g.name)) := by
  have hcap : CaptureErr errs (readErr v g.name) = (errs, some (readErr v g.name)) :=
    CaptureErr_passthrough errs (readErr v g.name) (isAggregate_readErr v g.name)
      (by rw [IsValidationError_readErr]; exact h1)
      (by rw [errorsIs_readErr_sentinel]; exact h2)
  simp only [dumpFiles, hv, Capture_some, hcap]

/-- `firstValidFileLines` aborts at once when a file's read fails with
an opaque (non-validation, non-`ErrEmptyCorpus`) error, returning only
that failure wrapped with the file's name. -/
theorem firstValid_readfail (bad : List FileEntry) (g : FileEntry) (rest : List FileEntry)
    (errs : CorpusErrors) (v : GoErr)
    (hbad : ∀ x ∈ bad, ∃ u, readLines x.content = .error u ∧ IsValidationError u = true)
    (hg : readLines g.content = .error v)
    (h1 : IsValidationError v = false)
    (h2 : errorsIs v (.sentinel .emptyCorpus) = false) :
    firstValidFileLines errs (bad ++ g :: rest) = ([], [], some (readErr v g.name)) := by
  induction bad generalizing errs with
  | nil =>
    have hcap : CaptureErr errs (readErr v g.name) = (errs, some (readErr v g.name)) :=
      CaptureErr_passthrough errs (readErr v g.name) (isAggregate_readErr v g.name)
        (by rw [IsValidationError_readErr]; exact h1)
        (by rw [errorsIs_readErr_sentinel]; exact h2)
    simp only [List.nil_append, firstValidFileLines, hg, Capture_some, hcap]
  | cons b bs ih =>
    obtain ⟨u, hu, huval⟩ := hbad b (by simp)
    have hcap : CaptureErr errs (readErr u b.name) = (errs ++ [readErr u b.name], none) :=
      CaptureErr_validation errs _ (isAggregate_readErr u b.name)
        (by rw [IsValidationError_readErr, huval])
    simp only [List.cons_append, firstValidFileLines, hu, Capture_some, hcap, List.append_eq]
    exact ih (errs ++ [readErr u b.name]) fun x hx => hbad x (by simp [hx])

/-- C10: an opaque read failure — one matching neither a validation
kind nor `ErrEmptyCorpus`, e.g. a file-not-found error from the read
primitive — aborts the scan in either phase, and the scan's result is
only that failure wrapped with the "reading" tag and the file's name;
recoverable validation errors captured from earlier files are discarded
rather than reported alongside it. -/
theorem DumpDir_external_read_failure (w : GoWriter) (listing : List FileEntry) (v : GoErr)
    (h1 : IsValidationError v = false)
    (h2 : errorsIs v (.sentinel .emptyCorpus) = false) :
    (∀ (bad : List FileEntry) (g : FileEntry) (rest : List FileEntry),
      getFiles listing = bad ++ g :: rest →
      (∀ x ∈ bad, ∃ u, readLines x.content = .error u ∧ IsValidationError u = true) →
      readLines g.content = .error v →
      DumpDir w listing = ({ out := "", calls := 0 }, some (readErr v g.name))) ∧
    (∀ (s : SinkState) (errs : CorpusErrors) (argCount : Nat) (g : FileEntry)
        (rest : List FileEntry),
      readLines g.content = .error v →
      dumpFiles w s errs argCount (g :: rest) = (s, some (readErr v g.name))) ∧
    (∀ (b f g : FileEntry) (u : GoErr) (lines : List String),
      w.failAt = none →
      getFiles listing = [b, f, g] →
      readLines b.content = .error u → IsValidationError u = true →
      readLines f.content = .ok lines →
      readLines g.content = .error v →
      DumpDir w listing
        = ({ out := "" ++ ((if lines.length > 1 then multiArgSep else sigleArgSep).Pre ++ "\n")
              ++ renderedValues lines,
             calls := lines.length + 1 },
           some (readErr v g.name))) := by
  refine ⟨?_, ?_, ?_⟩
  · intro bad g rest hcf hbad hg
    have hne : getFiles listing ≠ [] := by
      rw [hcf]
      simp
    have hfv := firstValid_readfail bad g rest [] v hbad hg h1 h2
    have hcap : CaptureErr [] (readErr v g.name) = ([], some (readErr v g.name)) :=
      CaptureErr_passthrough [] (readErr v g.name) (isAggregate_readErr v g.name)
        (by rw [IsValidationError_readErr]; exact h1)
        (by rw [errorsIs_readErr_sentinel]; exact h2)
    simp only [DumpDir, corpusFiles_ne listing hne, hcf, hfv, Capture_some, hcap]
  · intro s errs argCount g rest hg
    exact dumpFiles_readfail_step w s errs argCount g rest v hg h1 h2
  · intro b f g u lines hw hcf hu huval hf hg
    have hne : getFiles listing ≠ [] := by
      rw [hcf]
      simp
    have hfv := firstValid_success [b] f [g] [] lines
      (by
        intro x hx
        have : x = b := by simpa using hx
        subst this
        exact ⟨u, hu, huval⟩) hf
    have hfb : fileFailure b = u := by simp [fileFailure, hu]
    simp only [List.cons_append, List.nil_append, List.map_cons, List.map_nil, hfb] at hfv
    have hcap1 : Capture [] (AsError [readErr u b.name]) = ([readErr u b.name], none) :=
      Capture_AsError_validation [readErr u b.name]
        (by
          intro x hx
          have : x = readErr u b.name := by simpa using hx
          subst this
          exact ⟨isAggregate_readErr u b.name,
            by rw [IsValidationError_readErr, huval]⟩)
    have hw0 := write_ok w { out := "", calls := 0 }
      ((if lines.length > 1 then multiArgSep else sigleArgSep).Pre ++ "\n") hw
    have hdl := dumpLines_ok w hw lines
      { out := "" ++ ((if lines.length > 1 then multiArgSep else sigleArgSep).Pre ++ "\n"),
        calls := 0 + 1 }
    have hdf := dumpFiles_readfail_step w
      { out := "" ++ ((if lines.length > 1 then multiArgSep else sigleArgSep).Pre ++ "\n")
          ++ renderedValues lines,
        calls := 0 + 1 + lines.length }
      [] lines.length g [] v hg h1 h2
    have hcap2 : CaptureErr [readErr u b.name] (readErr v g.name)
        = ([readErr u b.name], some (readErr v g.name)) :=
      CaptureErr_passthrough [readErr u b.name] (readErr v g.name) (isAggregate_readErr v g.name)
        (by rw [IsValidationError_readErr]; exact h1)
        (by rw [errorsIs_readErr_sentinel]; exact h2)
    simp only [DumpDir, corpusFiles_ne listing hne, hcf, hfv, hcap1, hw0, hdl,
      List.drop_succ_cons, List.drop_zero, hdf, Capture_some, hcap2]
    simp only [Prod.mk.injEq, SinkState.mk.injEq]
    refine ⟨⟨trivial, ?_⟩, trivial⟩
    omega

theorem DumpDir_external_read_failure_witness :
    DumpDir { failAt := none, failErr := .external 0 "unused" }
        [⟨"m", true, .ok "nope"⟩, ⟨"z", true, .error (.external 9 "open z: no such file")⟩]
      = ({ out := "", calls := 0 },
         some (readErr (.external 9 "open z: no such file") "z")) := by
  have h := DumpDir_external_read_failure { failAt := none, failErr := .external 0 "unused" }
    [⟨"m", true, .ok "nope"⟩, ⟨"z", true, .error (.external 9 "open z: no such file")⟩]
    (.external 9 "open z: no such file") (by simp) (by simp)
  exact h.1 [⟨"m", true, .ok "nope"⟩] ⟨"z", true, .error (.external 9 "open z: no such file")⟩ []
    (by simp [getFiles])
    (by
      intro x hx
      have : x = ⟨"m", true, .ok "nope"⟩ := by simpa using hx
      subst this
      exact ⟨.sentinel .malformedEntry, rfl, by simp [IsValidationError_sentinel]⟩)
    rfl

/-- C8: a failure of the write primitive at any rendering point aborts
the scan at once with that failure wrapped by the "writing output" tag,
and recoverable errors captured before that point are discarded: (i) a
value-line write failure inside `dumpLines`; (ii) an entry-separator
write failure inside `dumpFiles`, with any accumulated recoverable
errors dropped; (iii) a failure on the opening delimiter, dropping the
recoverable validation errors captured in phase 1; (iv) a failure on
the closing delimiter, dropping the recoverable error captured in
phase 2. -/
theorem write_failure_aborts (w : GoWriter) (listing : List FileEntry) :
    (∀ (s s' : SinkState) (e : GoErr) (v : String) (rest : List String),
      write w s ("\t" ++ v ++ ",\n") = (s', some e) →
      dumpLines w s (v :: rest) = (s', some (writeErr e))) ∧
    (∀ (s s' : SinkState) (errs : CorpusErrors) (argCount : Nat) (f : FileEntry)
        (rest : List FileEntry) (lines : List String) (e : GoErr),
      readLines f.content = .ok lines → lines.length = argCount → argCount > 1 →
      write w s (multiArgSep.In ++ "\n") = (s', some e) →
      dumpFiles w s errs argCount (f :: rest) = (s', some (writeErr e))) ∧
    (∀ (bad : List FileEntry) (f : FileEntry) (rest : List FileEntry) (lines : List String),
      getFiles listing = bad ++ f :: rest →
      (∀ x ∈ bad, ∃ u, readLines x.content = .error u ∧ IsValidationError u = true) →
      readLines f.content = .ok lines →
      w.failAt = some 0 →
      DumpDir w listing = ({ out := "", calls := 0 + 1 }, some (writeErr w.failErr))) ∧
    (∀ (f g : FileEntry) (lines : List String) (u : GoErr),
      getFiles listing = [f, g] →
      readLines f.content = .ok lines →
      readLines g.content = .error u → IsValidationError u = true →
      w.failAt = some (1 + lines.length) →
      DumpDir w listing
        = ({ out := "" ++ ((if lines.length > 1 then multiArgSep else sigleArgSep).Pre ++ "\n")
              ++ renderedValues lines,
             calls := lines.length + 2 },
           some (writeErr w.failErr))) := by
  refine ⟨?_, ?_, ?_, ?_⟩
  · intro s s' e v rest hwr
    simp only [dumpLines, hwr]
  · intro s s' errs argCount f rest lines e hv heq hm hwr
    simp only [dumpFiles, hv]
    rw [if_neg (fun hc => hc heq), if_pos hm, hwr]
  · intro bad f rest lines hcf hbad hf hfa
    have hne : getFiles listing ≠ [] := by
      rw [hcf]
      simp
    have hfv := firstValid_success bad f rest [] lines hbad hf
    rw [List.nil_append] at hfv
    have hcap1 : Capture [] (AsError (bad.map fun g => readErr (fileFailure g) g.name))
        = (bad.map fun g => readErr (fileFailure g) g.name, none) :=
      Capture_AsError_validation _ (by
        intro x hx
        obtain ⟨g', hg', rfl⟩ := List.mem_map.mp hx
        obtain ⟨u, hu, huv⟩ := hbad g' hg'
        refine ⟨isAggregate_readErr _ _, ?_⟩
        rw [IsValidationError_readErr]
        have : fileFailure g' = u := by simp [fileFailure, hu]
        rw [this, huv])
    have hw0 := write_fail w { out := "", calls := 0 }
      ((if lines.length > 1 then multiArgSep else sigleArgSep).Pre ++ "\n") (by rw [hfa])
    simp only [DumpDir, corpusFiles_ne listing hne, hcf, hfv, hcap1, hw0]
  · intro f g lines u hcf hf hg huval hfa
    have hne : getFiles listing ≠ [] := by
      rw [hcf]
      simp
    have hfv := firstValid_success [] f [g] [] lines (by intro x hx; simp at hx) hf
    simp only [List.nil_append, List.map_nil, List.append_nil, AsError_nil] at hfv
    have hw0 := write_ok_ne w { out := "", calls := 0 }
      ((if lines.length > 1 then multiArgSep else sigleArgSep).Pre ++ "\n")
      (by
        rw [hfa]
        intro hc
        injection hc with hc'
        simp at hc')
    have hdl := dumpLines_ok_before w (1 + lines.length) hfa lines
      { out := "" ++ ((if lines.length > 1 then multiArgSep else sigleArgSep).Pre ++ "\n"),
        calls := 0 + 1 }
      (by simp)
    have hstep := dumpFiles_validation_step w
      { out := "" ++ ((if lines.length > 1 then multiArgSep else sigleArgSep).Pre ++ "\n")
          ++ renderedValues lines,
        calls := 0 + 1 + lines.length }
      [] lines.length g [] u hg huval
    have hae : AsError [readErr u g.name] = some (.corpus [readErr u g.name]) :=
      AsError_ne_nil _ (by simp)
    have hcap2 : Capture [] (some (.corpus [readErr u g.name])) = ([readErr u g.name], none) := by
      rw [Capture_some, CaptureErr_corpus]
      have := CaptureAll_validation [] [readErr u g.name] (by
        intro x hx
        have : x = readErr u g.name := by simpa using hx
        subst this
        exact ⟨isAggregate_readErr _ _, by rw [IsValidationError_readErr, huval]⟩)
      rwa [List.nil_append] at this
    have hwpost := write_fail w
      { out := "" ++ ((if lines.length > 1 then multiArgSep else sigleArgSep).Pre ++ "\n")
          ++ renderedValues lines,
        calls := 0 + 1 + lines.length }
      ((if lines.length > 1 then multiArgSep else sigleArgSep).Post ++ "\n") (by rw [hfa])
    have hnil : dumpFiles w
        { out := "" ++ ((if lines.length > 1 then multiArgSep else sigleArgSep).Pre ++ "\n")
            ++ renderedValues lines,
          calls := 0 + 1 + lines.length }
        [readErr u g.name] lines.length []
        = (SinkState.mk
            ("" ++ ((if lines.length > 1 then multiArgSep else sigleArgSep).Pre ++ "\n")
              ++ renderedValues lines)
            (0 + 1 + lines.length),
           some (.corpus [readErr u g.name])) := by
      simp only [dumpFiles, hae]
    simp only [DumpDir, corpusFiles_ne listing hne, hcf, hfv, Capture_none, hw0, hdl,
      List.drop_succ_cons, List.drop_zero, List.nil_append, hstep, hnil, hcap2, hwpost]
    simp only [Prod.mk.injEq, SinkState.mk.injEq]
    refine ⟨⟨trivial, ?_⟩, trivial⟩
    omega

theorem write_failure_aborts_witness :
    dumpLines { failAt := some 0, failErr := .external 9 "pipe" } { out := "", calls := 0 }
        ["uint(1)"]
      = ({ out := "", calls := 1 }, some (writeErr (.external 9 "pipe"))) :=
  (write_failure_aborts { failAt := some 0, failErr := .external 9 "pipe" } []).1
    { out := "", calls := 0 } { out := "", calls := 1 } (.external 9 "pipe") "uint(1)" [] rfl
